import Mathlib

/-!
Verification development for the column-generation repository.

The embedding follows the C++ sources:
  - src/src/cg_solver.cpp      (KnapsackPricer, CuttingStockSolver)
  - src/src/scip_pricer.cpp    (CuttingStockPricer::solveKnapsack)
  - src/src/scip_constraint.cpp (ScipConstraint constructor validation)
  - src/spprc/spprc.cpp        (SPPRC label-setting algorithm)

Machine doubles are modelled as rationals, C++ int resource values as
integers, and C++ unsigned sizes / widths as naturals (the problem-input
contract requires positive integer widths).  Fallible operations return
Option or Except.
-/

/- ------------------------------------------------------------------
   Knapsack dynamic program
   (KnapsackPricer::solvePricingProblem, cg_solver.cpp lines 15-60, and
    CuttingStockPricer::solveKnapsack, scip_pricer.cpp lines 121-153).

   Both sources fill an array dp[0..W] cell by cell in increasing w,
   scanning items i = 0..n-1 inside each cell; dp cells below w are final
   when cell w is computed.  scanStep is the inner-loop body: it reads
   dp[w - widths[i]] (through dpLow; when widths[i] = 0 the C++ code reads
   the in-place current value of dp[w], i.e. the accumulator) and performs
   the strict improvement update of (dp[w], item[w]).
------------------------------------------------------------------ -/

def scanStep (widths : List ℕ) (duals : List ℚ) (dpLow : ℕ → ℚ) (w : ℕ)
    (cur : ℚ × Option ℕ) (i : ℕ) : ℚ × Option ℕ :=
  let wi := widths.getD i 0
  if wi ≤ w then
    let v := (if wi = 0 then cur.1 else dpLow (w - wi)) + duals.getD i 0
    if cur.1 < v then (v, some i) else cur
  else cur

/-- One cell of the knapsack DP: the scan over all items for a fixed
capacity w, starting from the initialized cell (0.0, -1). -/
def knapScan (widths : List ℕ) (duals : List ℚ) (dpLow : ℕ → ℚ) (w : ℕ) :
    ℚ × Option ℕ :=
  (List.range widths.length).foldl (scanStep widths duals dpLow w) ((0 : ℚ), none)

/-- The DP table of KnapsackPricer::solvePricingProblem for cells 0..W:
cell 0 keeps its initialization (0.0, -1) because the C++ loop starts at
w = 1; cell w+1 is computed by the item scan reading lower cells. -/
def knapTableK (widths : List ℕ) (duals : List ℚ) : ℕ → List (ℚ × Option ℕ)
  | 0 => [((0 : ℚ), none)]
  | w + 1 =>
    let t := knapTableK widths duals w
    t ++ [knapScan widths duals (fun u => (t.getD u ((0 : ℚ), none)).1) (w + 1)]

/-- Final dp value of cell w (KnapsackPricer variant). -/
def dpK (widths : List ℕ) (duals : List ℚ) (w : ℕ) : ℚ :=
  ((knapTableK widths duals w).getD w ((0 : ℚ), none)).1

/-- Final item (choice) entry of cell w (KnapsackPricer variant). -/
def itemK (widths : List ℕ) (duals : List ℚ) (w : ℕ) : Option ℕ :=
  ((knapTableK widths duals w).getD w ((0 : ℚ), none)).2

/-- The DP table of CuttingStockPricer::solveKnapsack for cells 0..W: the
C++ loop there starts at w = 0, so cell 0 is also produced by the item
scan (the scan at w = 0 can only consult the in-place accumulator, so the
lower-cell lookup function is irrelevant there). -/
def knapTableC (widths : List ℕ) (duals : List ℚ) : ℕ → List (ℚ × Option ℕ)
  | 0 => [knapScan widths duals (fun _ => (0 : ℚ)) 0]
  | w + 1 =>
    let t := knapTableC widths duals w
    t ++ [knapScan widths duals (fun u => (t.getD u ((0 : ℚ), none)).1) (w + 1)]

/-- Pattern reconstruction: walk the choice array downward from w,
incrementing the chosen item's count, while w > 0 and a choice exists
(cg_solver.cpp lines 49-55, scip_pricer.cpp lines 144-150).  The C++
while-loop terminates because every recorded item has positive width; the
fuel argument (instantiated with the starting width, an upper bound on
the number of steps) makes the same loop structurally recursive. -/
def rebuild (widths : List ℕ) (itemF : ℕ → Option ℕ) :
    ℕ → ℕ → List ℕ → List ℕ
  | 0, _, pat => pat
  | fuel + 1, w, pat =>
    if w = 0 then pat
    else
      match itemF w with
      | none => pat
      | some i =>
        rebuild widths itemF fuel (w - widths.getD i 0)
          (pat.set i (pat.getD i 0 + 1))

/-- Best-value search of KnapsackPricer::solvePricingProblem
(cg_solver.cpp lines 38-46): scan w = 1..W keeping (bestValue, bestWidth),
starting at (0.0, 0), updating on strict improvement. -/
def bestPairK (widths : List ℕ) (duals : List ℚ) (capacity : ℕ) : ℚ × ℕ :=
  let t := knapTableK widths duals capacity
  (List.range' 1 capacity).foldl
    (fun cur w =>
      if cur.1 < (t.getD w ((0 : ℚ), none)).1 then ((t.getD w ((0 : ℚ), none)).1, w)
      else cur)
    ((0 : ℚ), 0)

/-- KnapsackPricer::solvePricingProblem (cg_solver.cpp lines 15-60):
returns the reconstructed pattern and the reduced cost 1 - bestValue. -/
def solvePricingProblem (widths : List ℕ) (capacity : ℕ) (duals : List ℚ) :
    List ℕ × ℚ :=
  let n := widths.length
  let t := knapTableK widths duals capacity
  let best := bestPairK widths duals capacity
  let pattern :=
    rebuild widths (fun w => (t.getD w ((0 : ℚ), none)).2) best.2 best.2
      (List.replicate n 0)
  (pattern, 1 - best.1)

/-- CuttingStockPricer::solveKnapsack (scip_pricer.cpp lines 121-153):
best value is taken as dp[W] only, and the pattern is reconstructed by
walking the keepTrack array from W. -/
def solveKnapsack (widths : List ℕ) (rollWidth : ℕ) (duals : List ℚ) :
    List ℕ × ℚ :=
  let n := widths.length
  let t := knapTableC widths duals rollWidth
  let bestValue := (t.getD rollWidth ((0 : ℚ), none)).1
  let pattern :=
    rebuild widths (fun w => (t.getD w ((0 : ℚ), none)).2) rollWidth rollWidth
      (List.replicate n 0)
  (pattern, bestValue)

/-- Independent recomputation of the dual-weighted pattern value
Σ_i duals[i] * pattern[i] from the reduced-cost identity of spec 4.2. -/
def patternValue : List ℚ → List ℕ → ℚ
  | _, [] => 0
  | [], _ :: ps => patternValue [] ps
  | d :: ds, p :: ps => d * (p : ℚ) + patternValue ds ps

/- ------------------------------------------------------------------
   SPPRC label-setting algorithm (src/spprc/spprc.cpp).

   Costs (C++ double) are rationals, resource values (C++ int) are
   integers.  The state all_labels is the per-node list of labels.  The
   call removeDominatedLabels(to_node) at spprc.cpp line 94 is ill-formed
   C++ (the function declared at line 68 takes a second argument); it is
   embedded with the only candidate in scope, the freshly pushed
   new_label, keeping the written push-then-sweep order.
------------------------------------------------------------------ -/

structure SpprcArc where
  fromNode : ℕ
  toNode : ℕ
  cost : ℚ
  resource_consumption : List ℤ
deriving DecidableEq

structure SpprcLabel where
  label_id : ℕ
  node : ℕ
  resources : List ℤ
  cost : ℚ
  prev_label_id : ℤ
  dominated : Bool
  unreachable_nodes : List ℕ
deriving DecidableEq

instance : Inhabited SpprcLabel :=
  ⟨{ label_id := 0, node := 0, resources := [], cost := 0, prev_label_id := -1,
     dominated := false, unreachable_nodes := [] }⟩

structure SpprcResourceWindow where
  min_val : ℚ
  max_val : ℚ
  is_continuous : Bool
deriving DecidableEq

instance : Inhabited SpprcResourceWindow :=
  ⟨{ min_val := 0, max_val := 0, is_continuous := false }⟩

/-- SPPRC::dominates (spprc.cpp lines 40-46): l1 dominates l2 iff
l1.cost is not greater and no resource component of l1 exceeds l2's,
over the configured resource dimensions. -/
def dominates (limits : List SpprcResourceWindow) (l1 l2 : SpprcLabel) : Bool :=
  if l2.cost < l1.cost then false
  else
    (List.range limits.length).all fun i =>
      l1.resources.getD i 0 ≤ l2.resources.getD i 0

/-- SPPRC::isFeasible (spprc.cpp lines 49-55): every resource component
must lie in its window. -/
def isFeasible (limits : List SpprcResourceWindow) (label : SpprcLabel) : Bool :=
  (List.range limits.length).all fun i =>
    ((label.resources.getD i 0 : ℚ) ≤ (limits.getD i default).max_val) &&
      ((limits.getD i default).min_val ≤ (label.resources.getD i 0 : ℚ))

/-- SPPRC::isDominated (spprc.cpp lines 58-65): test the new label against
every stored label at the node. -/
def isDominated (limits : List SpprcResourceWindow)
    (all_labels : List (List SpprcLabel)) (new_label : SpprcLabel) (node : ℕ) :
    Bool :=
  (all_labels.getD node []).any fun existing => dominates limits existing new_label

/-- SPPRC::removeDominatedLabels (spprc.cpp lines 68-74): erase every
stored label at the node that the new label dominates. -/
def removeDominatedLabels (limits : List SpprcResourceWindow)
    (labels : List SpprcLabel) (new_label : SpprcLabel) : List SpprcLabel :=
  labels.filter fun existing => ! dominates limits new_label existing

/-- Label extension of one source label along an arc (spprc.cpp lines
80-96): copy the label, move it to to_node, add arc cost and arc resource
consumption, then feasibility test, dominance test, push, and dominance
sweep of the target node's labels. -/
def extendOne (limits : List SpprcResourceWindow) (to_node : ℕ) (arc : SpprcArc)
    (st : List (List SpprcLabel)) (label : SpprcLabel) : List (List SpprcLabel) :=
  if label.dominated then st
  else
    let new_label : SpprcLabel :=
      { label with
        node := to_node
        cost := label.cost + arc.cost
        resources :=
          (List.range label.resources.length).map fun i =>
            label.resources.getD i 0 + arc.resource_consumption.getD i 0 }
    if isFeasible limits new_label then
      if isDominated limits st new_label to_node then st
      else
        st.set to_node
          (removeDominatedLabels limits ((st.getD to_node []) ++ [new_label])
            new_label)
    else st

/-- SPPRC::extendLabel (spprc.cpp lines 76-98): extend every label stored
at from_node along the arc.  The C++ loop iterates over
all_labels[from_node] while mutating all_labels[to_node]; for
from_node different from to_node this is the fold below over the
snapshot of the source node's labels. -/
def extendLabel (limits : List SpprcResourceWindow)
    (st : List (List SpprcLabel)) (from_node to_node : ℕ) (arc : SpprcArc) :
    List (List SpprcLabel) :=
  (st.getD from_node []).foldl (extendOne limits to_node arc) st

/-- SPPRC::createInitialLabel (spprc.cpp lines 101-110). -/
def createInitialLabel (limits : List SpprcResourceWindow) (source : ℕ) :
    SpprcLabel :=
  { label_id := 0, node := source,
    resources := List.replicate limits.length (0 : ℤ), cost := 0,
    prev_label_id := -1, dominated := false, unreachable_nodes := [] }

/-- Inner j-loop of SPPRC::applyDominance (spprc.cpp lines 117-125) for a
fixed index i, with early break when labels[i] itself becomes dominated.
Structural recursion on the number of remaining indices. -/
def applyDominanceInner (limits : List SpprcResourceWindow) :
    ℕ → List SpprcLabel → ℕ → ℕ → List SpprcLabel
  | 0, labels, _, _ => labels
  | fuel + 1, labels, i, j =>
    if labels.length ≤ j then labels
    else if (labels.getD j default).dominated then
      applyDominanceInner limits fuel labels i (j + 1)
    else if dominates limits (labels.getD i default) (labels.getD j default) then
      applyDominanceInner limits fuel
        (labels.set j { labels.getD j default with dominated := true }) i (j + 1)
    else if dominates limits (labels.getD j default) (labels.getD i default) then
      labels.set i { labels.getD i default with dominated := true }
    else applyDominanceInner limits fuel labels i (j + 1)

/-- SPPRC::applyDominance (spprc.cpp lines 113-127): pairwise marking of
dominated flags at one node. -/
def applyDominance (limits : List SpprcResourceWindow)
    (labels : List SpprcLabel) : List SpprcLabel :=
  (List.range labels.length).foldl
    (fun cur i =>
      if (cur.getD i default).dominated then cur
      else applyDominanceInner limits cur.length cur i (i + 1))
    labels

/-- Worklist loop of SPPRC::solve (spprc.cpp lines 136-145): pop a node,
extend all its labels along its outgoing arcs, run the dominance sweep on
it.  The source never pushes anything onto the queue.  The fuel argument
counts loop iterations; none signals that fuel ran out with the queue
still nonempty. -/
def solveLoop (limits : List SpprcResourceWindow)
    (graph : List (List (ℕ × SpprcArc))) :
    ℕ → List ℕ → List (List SpprcLabel) → Option (List (List SpprcLabel))
  | fuel, [], st =>
    let _ := fuel
    some st
  | 0, _ :: _, _ => none
  | fuel + 1, current :: rest, st =>
    let st' :=
      (graph.getD current []).foldl
        (fun s pa => extendLabel limits s current pa.1 pa.2) st
    let st'' := st'.set current (applyDominance limits (st'.getD current []))
    solveLoop limits graph fuel rest st''

/-- SPPRC::solve (spprc.cpp lines 129-146): all_labels starts empty per
node, the initial label is pushed at the source, the queue starts as
[source], and the loop runs until the queue empties.  The sink parameter
is accepted and, as in the source, never used. -/
def spprcSolve (limits : List SpprcResourceWindow)
    (graph : List (List (ℕ × SpprcArc))) (numNodes source sink : ℕ)
    (fuel : ℕ) : Option (List (List SpprcLabel)) :=
  let _ := sink
  let st0 :=
    (List.replicate numNodes ([] : List SpprcLabel)).set source
      [createInitialLabel limits source]
  solveLoop limits graph fuel [source] st0

/- ------------------------------------------------------------------
   Column generation loop (CuttingStockSolver::generateColumns,
   cg_solver.cpp lines 133-207).

   The master problem is the external SCIP engine; its only influence on
   the loop is the dual vector it yields at each iteration, so the loop
   is embedded parametrically in an oracle dualsAt mapping the (1-based)
   iteration number to the dual vector read in that iteration.  Columns
   are the priced patterns; every added variable has lower bound 0, upper
   bound infinity and objective coefficient 1, and contributes the
   coefficient pattern[i] to constraint i, all determined by the pattern.
------------------------------------------------------------------ -/

/-- One loop body of generateColumns after the master solve (cg_solver.cpp
lines 146-192): price with the current duals, and append the pattern as a
new column exactly when reducedCost < -pricing_tol.  Returns the
newColumnsAdded flag and the updated column list. -/
def cgStep (widths : List ℕ) (capacity : ℕ) (tol : ℚ) (dualsAt : ℕ → List ℚ)
    (iteration : ℕ) (cols : List (List ℕ)) : Bool × List (List ℕ) :=
  let pr := solvePricingProblem widths capacity (dualsAt iteration)
  if pr.2 < -tol then (true, cols ++ [pr.1]) else (false, cols)

/-- The do-while loop of generateColumns (cg_solver.cpp lines 139-199):
increment the iteration counter, run the body, break with !newColumnsAdded
once iteration >= max_iterations, else continue while newColumnsAdded.
Output: (converged, iterations, columns).  The fuel argument is
instantiated with max_iterations, which bounds the remaining loop trips;
the fuel-exhausted fallback is unreachable from the top-level call. -/
def cgAux (widths : List ℕ) (capacity : ℕ) (tol : ℚ) (maxIter : ℕ)
    (dualsAt : ℕ → List ℚ) :
    ℕ → ℕ → List (List ℕ) → Bool × ℕ × List (List ℕ)
  | 0, iteration, cols =>
    let it := iteration + 1
    let step := cgStep widths capacity tol dualsAt it cols
    if maxIter ≤ it then (! step.1, it, step.2)
    else
      match step.1 with
      | true => (false, it, step.2)
      | false => (true, it, step.2)
  | fuel + 1, iteration, cols =>
    let it := iteration + 1
    let step := cgStep widths capacity tol dualsAt it cols
    if maxIter ≤ it then (! step.1, it, step.2)
    else
      match step.1 with
      | true => cgAux widths capacity tol maxIter dualsAt fuel it step.2
      | false => (true, it, step.2)

/-- CuttingStockSolver::generateColumns (cg_solver.cpp lines 133-207),
returning (converged, iterations, columns) starting from the given
initial column list. -/
def generateColumns (widths : List ℕ) (capacity : ℕ) (tol : ℚ) (maxIter : ℕ)
    (dualsAt : ℕ → List ℚ) (cols0 : List (List ℕ)) : Bool × ℕ × List (List ℕ) :=
  cgAux widths capacity tol maxIter dualsAt maxIter 0 cols0

/- ------------------------------------------------------------------
   Master-problem construction (CuttingStockSolver constructor,
   cg_solver.cpp lines 66-131, and the ScipConstraint constructor,
   scip_constraint.cpp lines 9-40).

   Constraints and variables are modelled by the data the façade passes
   to SCIP; throwing std::runtime_error is an Except.error carrying the
   exception message.
------------------------------------------------------------------ -/

structure MasterConstraint where
  name : String
  varNames : List String
  coeffs : List ℚ
  lhs : ℚ
  rhs : ℚ
deriving DecidableEq

/-- SCIPinfinity default value (SCIP uses 1e20). -/
def scipInfinity : ℚ := 100000000000000000000

/-- ScipConstraint::ScipConstraint (scip_constraint.cpp lines 9-40):
reject mismatched variable/coefficient lists and empty variable lists,
otherwise create the constraint. -/
def scipConstraintNew (name : String) (varNames : List String)
    (coeffs : List ℚ) (lhs rhs : ℚ) : Except String MasterConstraint :=
  if varNames.length ≠ coeffs.length then
    Except.error "Variables and coefficients size mismatch"
  else if varNames.isEmpty then
    Except.error "Constraint must have at least one variable"
  else Except.ok { name := name, varNames := varNames, coeffs := coeffs,
                   lhs := lhs, rhs := rhs }

/-- CuttingStockSolver::setupMasterProblem (cg_solver.cpp lines 88-107):
one demand constraint per item, each created with an empty variable list
and an empty coefficient list, lhs = demand, rhs = infinity. -/
def setupMasterProblem (numItems : ℕ) (demands : List ℤ) :
    Except String (List MasterConstraint) :=
  (List.range numItems).foldl
    (fun acc i =>
      acc.bind fun cs =>
        (scipConstraintNew (String.append "demand_" (toString i)) [] []
            (demands.getD i 0 : ℚ) scipInfinity).map
          fun c => cs ++ [c])
    (Except.ok [])

/-- ScipConstraint::addVariable (scip_constraint.cpp lines 85-100) applied
to constraint i of the list: record the new coefficient. -/
def constraintAddVariable (cs : List MasterConstraint) (i : ℕ)
    (varName : String) (coeff : ℚ) : List MasterConstraint :=
  match cs.get? i with
  | none => cs
  | some c =>
    cs.set i { c with varNames := c.varNames ++ [varName],
                      coeffs := c.coeffs ++ [coeff] }

/-- CuttingStockSolver::addInitialColumns (cg_solver.cpp lines 109-131):
one initial variable per item, added to demand constraint i with
coefficient 1. -/
def addInitialColumns (numItems : ℕ) (cs : List MasterConstraint) :
    List MasterConstraint × List String :=
  (List.range numItems).foldl
    (fun acc i =>
      (constraintAddVariable acc.1 i (String.append "init_" (toString i)) 1,
        acc.2 ++ [String.append "init_" (toString i)]))
    (cs, [])

/-- CuttingStockSolver::CuttingStockSolver (cg_solver.cpp lines 66-86):
validate that widths and demands have the same size, then set up the
master problem and the initial columns; any constructor exception
propagates as an error. -/
def cuttingStockSolverNew (widths : List ℕ) (demands : List ℤ)
    (capacity : ℕ) : Except String (List MasterConstraint × List String) :=
  let _ := capacity
  if widths.length ≠ demands.length then
    Except.error "Widths and demands must have same size"
  else
    (setupMasterProblem widths.length demands).map fun cs =>
      addInitialColumns widths.length cs

/- ------------------------------------------------------------------
   Checked knapsack pricing (safety embedding for the duals accesses).

   KnapsackPricer::solvePricingProblem reads duals[i] (cg_solver.cpp line
   29) whenever widths_[i] <= w for the current DP cell w; std::vector
   indexing out of range is the failure the spec calls a programmer
   error.  The checked variant returns none exactly when such an access
   falls outside the duals vector; everything else is the computation of
   solvePricingProblem (the best-value scan and the reconstruction never
   touch duals).
------------------------------------------------------------------ -/

def scanStepE (widths : List ℕ) (duals : List ℚ) (dpLow : ℕ → ℚ) (w : ℕ)
    (acc : Option (ℚ × Option ℕ)) (i : ℕ) : Option (ℚ × Option ℕ) :=
  acc.bind fun cur =>
    let wi := widths.getD i 0
    if wi ≤ w then
      (duals.get? i).map fun d =>
        let v := (if wi = 0 then cur.1 else dpLow (w - wi)) + d
        if cur.1 < v then (v, some i) else cur
    else some cur

def knapScanE (widths : List ℕ) (duals : List ℚ) (dpLow : ℕ → ℚ) (w : ℕ) :
    Option (ℚ × Option ℕ) :=
  (List.range widths.length).foldl (scanStepE widths duals dpLow w)
    (some ((0 : ℚ), none))

def knapTableKE (widths : List ℕ) (duals : List ℚ) :
    ℕ → Option (List (ℚ × Option ℕ))
  | 0 => some [((0 : ℚ), none)]
  | w + 1 =>
    (knapTableKE widths duals w).bind fun t =>
      (knapScanE widths duals (fun u => (t.getD u ((0 : ℚ), none)).1) (w + 1)).map
        fun cell => t ++ [cell]

/-- Checked KnapsackPricer::solvePricingProblem: none exactly when the DP
performs an out-of-range duals access. -/
def solvePricingProblemE (widths : List ℕ) (capacity : ℕ) (duals : List ℚ) :
    Option (List ℕ × ℚ) :=
  (knapTableKE widths duals capacity).map fun t =>
    let n := widths.length
    let best :=
      (List.range' 1 capacity).foldl
        (fun cur w =>
          if cur.1 < (t.getD w ((0 : ℚ), none)).1 then
            ((t.getD w ((0 : ℚ), none)).1, w)
          else cur)
        ((0 : ℚ), 0)
    let pattern :=
      rebuild widths (fun w => (t.getD w ((0 : ℚ), none)).2) best.2 best.2
        (List.replicate n 0)
    (pattern, 1 - best.1)

/- ------------------------------------------------------------------
   Lemmas about the knapsack DP.
------------------------------------------------------------------ -/

theorem scanStep_fst_le (widths : List ℕ) (duals : List ℚ) (dpLow : ℕ → ℚ)
    (w : ℕ) (cur : ℚ × Option ℕ) (i : ℕ) :
    cur.1 ≤ (scanStep widths duals dpLow w cur i).1 := by
  unfold scanStep
  dsimp only
  repeat' split
  all_goals first
    | exact le_refl _
    | exact le_of_lt (by assumption)

theorem foldl_scanStep_fst_le (widths : List ℕ) (duals : List ℚ)
    (dpLow : ℕ → ℚ) (w : ℕ) (l : List ℕ) (init : ℚ × Option ℕ) :
    init.1 ≤ (l.foldl (scanStep widths duals dpLow w) init).1 := by
  induction l generalizing init with
  | nil => exact le_refl _
  | cons j t ih =>
    exact le_trans (scanStep_fst_le widths duals dpLow w init j) (ih _)

theorem foldl_scanStep_cases (widths : List ℕ) (duals : List ℚ)
    (dpLow : ℕ → ℚ) (w : ℕ) (hw : ∀ x ∈ widths, 0 < x) (l : List ℕ)
    (hl : ∀ i ∈ l, i < widths.length) (init : ℚ × Option ℕ)
    (hinit : init = ((0 : ℚ), none) ∨
      ∃ i < widths.length, widths.getD i 0 ≤ w ∧
        init = (dpLow (w - widths.getD i 0) + duals.getD i 0, some i)) :
    l.foldl (scanStep widths duals dpLow w) init = ((0 : ℚ), none) ∨
      ∃ i < widths.length, widths.getD i 0 ≤ w ∧
        l.foldl (scanStep widths duals dpLow w) init =
          (dpLow (w - widths.getD i 0) + duals.getD i 0, some i) := by
  induction l generalizing init with
  | nil => exact hinit
  | cons j t ih =>
    refine ih (fun i hi => hl i (List.mem_cons_of_mem j hi)) _ ?_
    have hj : j < widths.length := hl j (List.mem_cons_self j t)
    have hjpos : 0 < widths.getD j 0 := by
      have hmem : widths.getD j 0 ∈ widths := by
        rw [List.getD_eq_getElem widths 0 hj]
        exact List.getElem_mem hj
      exact hw _ hmem
    unfold scanStep
    dsimp only
    split
    · next hle =>
      rw [if_neg (Nat.pos_iff_ne_zero.mp hjpos)]
      split
      · exact Or.inr ⟨j, hj, hle, rfl⟩
      · exact hinit
    · exact hinit

theorem foldl_scanStep_ge_cand (widths : List ℕ) (duals : List ℚ)
    (dpLow : ℕ → ℚ) (w : ℕ) (hw : ∀ x ∈ widths, 0 < x) (l : List ℕ)
    (hl : ∀ i ∈ l, i < widths.length) (init : ℚ × Option ℕ) (i : ℕ)
    (hi : i ∈ l) (hle : widths.getD i 0 ≤ w) :
    dpLow (w - widths.getD i 0) + duals.getD i 0 ≤
      (l.foldl (scanStep widths duals dpLow w) init).1 := by
  induction l generalizing init with
  | nil => cases hi
  | cons j t ih =>
    rcases List.mem_cons.mp hi with rfl | hmem
    · have hjpos : 0 < widths.getD i 0 := by
        have hj : i < widths.length := hl i (List.mem_cons_self i t)
        have hmem : widths.getD i 0 ∈ widths := by
          rw [List.getD_eq_getElem widths 0 hj]
          exact List.getElem_mem hj
        exact hw _ hmem
      have hstep : dpLow (w - widths.getD i 0) + duals.getD i 0 ≤
          (scanStep widths duals dpLow w init i).1 := by
        unfold scanStep
        dsimp only
        rw [if_pos hle, if_neg (Nat.pos_iff_ne_zero.mp hjpos)]
        split
        · exact le_refl _
        · next hnot => exact le_of_not_lt hnot
      exact le_trans hstep (foldl_scanStep_fst_le widths duals dpLow w t _)
    · exact ih (fun x hx => hl x (List.mem_cons_of_mem j hx)) _ hmem

theorem knapScan_nonneg (widths : List ℕ) (duals : List ℚ) (dpLow : ℕ → ℚ)
    (w : ℕ) : 0 ≤ (knapScan widths duals dpLow w).1 :=
  foldl_scanStep_fst_le widths duals dpLow w _ ((0 : ℚ), none)

theorem knapScan_cases (widths : List ℕ) (duals : List ℚ) (dpLow : ℕ → ℚ)
    (w : ℕ) (hw : ∀ x ∈ widths, 0 < x) :
    knapScan widths duals dpLow w = ((0 : ℚ), none) ∨
      ∃ i < widths.length, widths.getD i 0 ≤ w ∧
        knapScan widths duals dpLow w =
          (dpLow (w - widths.getD i 0) + duals.getD i 0, some i) :=
  foldl_scanStep_cases widths duals dpLow w hw _
    (fun _ hi => List.mem_range.mp hi) _ (Or.inl rfl)

theorem knapScan_ge_cand (widths : List ℕ) (duals : List ℚ) (dpLow : ℕ → ℚ)
    (w : ℕ) (hw : ∀ x ∈ widths, 0 < x) (i : ℕ) (hi : i < widths.length)
    (hle : widths.getD i 0 ≤ w) :
    dpLow (w - widths.getD i 0) + duals.getD i 0 ≤
      (knapScan widths duals dpLow w).1 :=
  foldl_scanStep_ge_cand widths duals dpLow w hw _
    (fun _ hj => List.mem_range.mp hj) _ i (List.mem_range.mpr hi) hle

theorem knapScan_congr (widths : List ℕ) (duals : List ℚ)
    (dpLow₁ dpLow₂ : ℕ → ℚ) (w : ℕ)
    (h : ∀ i, i < widths.length → widths.getD i 0 ≤ w →
      widths.getD i 0 ≠ 0 → dpLow₁ (w - widths.getD i 0) = dpLow₂ (w - widths.getD i 0)) :
    knapScan widths duals dpLow₁ w = knapScan widths duals dpLow₂ w := by
  unfold knapScan
  have : ∀ (l : List ℕ), (∀ i ∈ l, i < widths.length) → ∀ init,
      l.foldl (scanStep widths duals dpLow₁ w) init =
        l.foldl (scanStep widths duals dpLow₂ w) init := by
    intro l
    induction l with
    | nil => intro _ init; rfl
    | cons j t ih =>
      intro hl init
      have hj : j < widths.length := hl j (List.mem_cons_self j t)
      have hstep : scanStep widths duals dpLow₁ w init j =
          scanStep widths duals dpLow₂ w init j := by
        unfold scanStep
        dsimp only
        split
        · next hle =>
          by_cases h0 : widths.getD j 0 = 0
          · rw [if_pos h0, if_pos h0]
          · rw [if_neg h0, if_neg h0, h j hj hle h0]
        · rfl
      rw [List.foldl_cons, List.foldl_cons, hstep,
        ih (fun x hx => hl x (List.mem_cons_of_mem j hx)) _]
  exact this _ (fun i hi => List.mem_range.mp hi) _

theorem knapTableK_length (widths : List ℕ) (duals : List ℚ) (W : ℕ) :
    (knapTableK widths duals W).length = W + 1 := by
  induction W with
  | zero => rfl
  | succ w ih => simp [knapTableK, ih]

theorem knapTableK_getD_stable (widths : List ℕ) (duals : List ℚ) (W w : ℕ)
    (h : w ≤ W) :
    (knapTableK widths duals W).getD w ((0 : ℚ), none) =
      (knapTableK widths duals w).getD w ((0 : ℚ), none) := by
  induction W with
  | zero =>
    interval_cases w
    rfl
  | succ W ih =>
    rcases Nat.lt_or_ge w (W + 1) with hlt | hge
    · rw [show knapTableK widths duals (W + 1) =
          knapTableK widths duals W ++
            [knapScan widths duals
              (fun u => ((knapTableK widths duals W).getD u ((0 : ℚ), none)).1)
              (W + 1)] from rfl]
      rw [List.getD_append _ _ _ _ (by rw [knapTableK_length]; exact hlt)]
      exact ih (Nat.lt_succ_iff.mp hlt)
    · have : w = W + 1 := le_antisymm h hge
      subst this
      rfl

theorem dpK_zero (widths : List ℕ) (duals : List ℚ) : dpK widths duals 0 = 0 :=
  rfl

theorem itemK_zero (widths : List ℕ) (duals : List ℚ) :
    itemK widths duals 0 = none := rfl

theorem knapTableK_getD_self (widths : List ℕ) (duals : List ℚ) (w : ℕ) :
    (knapTableK widths duals w).getD w ((0 : ℚ), none) =
      (dpK widths duals w, itemK widths duals w) := rfl

/-- The last cell of the DP table satisfies the scan recurrence with the
final lower dp values: the C++ loop computes cells in increasing w, so
all cells read while computing cell w + 1 are final. -/
theorem knapCellK_succ (widths : List ℕ) (duals : List ℚ) (w : ℕ) :
    (dpK widths duals (w + 1), itemK widths duals (w + 1)) =
      knapScan widths duals (dpK widths duals) (w + 1) := by
  rw [← knapTableK_getD_self]
  have hcell : (knapTableK widths duals (w + 1)).getD (w + 1) ((0 : ℚ), none) =
      knapScan widths duals
        (fun u => ((knapTableK widths duals w).getD u ((0 : ℚ), none)).1)
        (w + 1) := by
    rw [show knapTableK widths duals (w + 1) =
        knapTableK widths duals w ++
          [knapScan widths duals
            (fun u => ((knapTableK widths duals w).getD u ((0 : ℚ), none)).1)
            (w + 1)] from rfl]
    rw [List.getD_append_right _ _ _ _ (by rw [knapTableK_length])]
    rw [knapTableK_length]
    simp
  rw [hcell]
  apply knapScan_congr
  intro i hi hle h0
  have hsub : w + 1 - widths.getD i 0 ≤ w := by omega
  rw [knapTableK_getD_stable widths duals w _ hsub]
  rfl

theorem dpK_nonneg (widths : List ℕ) (duals : List ℚ) (w : ℕ) :
    0 ≤ dpK widths duals w := by
  cases w with
  | zero => exact le_refl 0
  | succ w =>
    have h := knapCellK_succ widths duals w
    have : dpK widths duals (w + 1) =
        (knapScan widths duals (dpK widths duals) (w + 1)).1 := by
      rw [← h]
    rw [this]
    exact knapScan_nonneg widths duals _ (w + 1)

theorem itemK_none_dpK (widths : List ℕ) (duals : List ℚ) (w : ℕ)
    (hw : ∀ x ∈ widths, 0 < x) (h : itemK widths duals w = none) :
    dpK widths duals w = 0 := by
  cases w with
  | zero => rfl
  | succ w =>
    have hcell := knapCellK_succ widths duals w
    rcases knapScan_cases widths duals (dpK widths duals) (w + 1) hw with hz | hs
    · rw [hz] at hcell
      exact congrArg Prod.fst hcell
    · obtain ⟨i, hi, hle, heq⟩ := hs
      rw [heq] at hcell
      have : itemK widths duals (w + 1) = some i := congrArg Prod.snd hcell
      rw [h] at this
      cases this

theorem itemK_some_dpK (widths : List ℕ) (duals : List ℚ) (w i : ℕ)
    (hw : ∀ x ∈ widths, 0 < x) (h : itemK widths duals w = some i) :
    i < widths.length ∧ widths.getD i 0 ≤ w ∧
      dpK widths duals w =
        dpK widths duals (w - widths.getD i 0) + duals.getD i 0 := by
  cases w with
  | zero =>
    rw [itemK_zero] at h
    cases h
  | succ w =>
    have hcell := knapCellK_succ widths duals w
    rcases knapScan_cases widths duals (dpK widths duals) (w + 1) hw with hz | hs
    · rw [hz] at hcell
      have : itemK widths duals (w + 1) = none := congrArg Prod.snd hcell
      rw [h] at this
      cases this
    · obtain ⟨j, hj, hle, heq⟩ := hs
      rw [heq] at hcell
      have hsnd : itemK widths duals (w + 1) = some j := congrArg Prod.snd hcell
      rw [h] at hsnd
      have hij : i = j := by injection hsnd
      subst hij
      exact ⟨hj, hle, congrArg Prod.fst hcell⟩

theorem dpK_ge_cand (widths : List ℕ) (duals : List ℚ) (w i : ℕ)
    (hw : ∀ x ∈ widths, 0 < x) (hi : i < widths.length)
    (hle : widths.getD i 0 ≤ w + 1) :
    dpK widths duals (w + 1 - widths.getD i 0) + duals.getD i 0 ≤
      dpK widths duals (w + 1) := by
  have hcell := knapCellK_succ widths duals w
  have : dpK widths duals (w + 1) =
      (knapScan widths duals (dpK widths duals) (w + 1)).1 := by rw [← hcell]
  rw [this]
  exact knapScan_ge_cand widths duals (dpK widths duals) (w + 1) hw i hi hle

theorem dpK_mono_succ (widths : List ℕ) (duals : List ℚ)
    (hw : ∀ x ∈ widths, 0 < x) :
    ∀ w, dpK widths duals w ≤ dpK widths duals (w + 1) := by
  intro w
  induction w using Nat.strong_induction_on with
  | _ w ih =>
    cases hitem : itemK widths duals w with
    | none =>
      rw [itemK_none_dpK widths duals w hw hitem]
      exact dpK_nonneg widths duals (w + 1)
    | some i =>
      obtain ⟨hi, hle, heq⟩ := itemK_some_dpK widths duals w i hw hitem
      have hpos : 0 < widths.getD i 0 := by
        have hmem : widths.getD i 0 ∈ widths := by
          rw [List.getD_eq_getElem widths 0 hi]
          exact List.getElem_mem hi
        exact hw _ hmem
      have hwpos : 0 < w := lt_of_lt_of_le hpos hle
      have hrec : dpK widths duals (w - widths.getD i 0) ≤
          dpK widths duals (w - widths.getD i 0 + 1) :=
        ih (w - widths.getD i 0) (by omega)
      have hcand := dpK_ge_cand widths duals w i hw hi (by omega)
      have hshift : w + 1 - widths.getD i 0 = w - widths.getD i 0 + 1 := by omega
      rw [hshift] at hcand
      rw [heq]
      calc dpK widths duals (w - widths.getD i 0) + duals.getD i 0
      _ ≤ dpK widths duals (w - widths.getD i 0 + 1) + duals.getD i 0 := by
        exact add_le_add_right hrec _
      _ ≤ dpK widths duals (w + 1) := hcand

theorem dpK_mono (widths : List ℕ) (duals : List ℚ)
    (hw : ∀ x ∈ widths, 0 < x) (w W : ℕ) (h : w ≤ W) :
    dpK widths duals w ≤ dpK widths duals W := by
  induction W with
  | zero =>
    interval_cases w
    exact le_refl _
  | succ W ih =>
    rcases Nat.lt_or_ge w (W + 1) with hlt | hge
    · exact le_trans (ih (Nat.lt_succ_iff.mp hlt)) (dpK_mono_succ widths duals hw W)
    · have : w = W + 1 := le_antisymm h hge
      subst this
      exact le_refl _

/-- Invariant of the best-value scan: the accumulator is always a true
(dp value, width) pair with the width within capacity. -/
theorem bestPairK_invariant (widths : List ℕ) (duals : List ℚ)
    (capacity : ℕ) :
    (bestPairK widths duals capacity).1 =
        dpK widths duals (bestPairK widths duals capacity).2 ∧
      (bestPairK widths duals capacity).2 ≤ capacity := by
  unfold bestPairK
  dsimp only
  have : ∀ (l : List ℕ), (∀ x ∈ l, x ≤ capacity) →
      ∀ init : ℚ × ℕ, init.1 = dpK widths duals init.2 → init.2 ≤ capacity →
      (l.foldl
        (fun cur w =>
          if cur.1 < ((knapTableK widths duals capacity).getD w ((0 : ℚ), none)).1
          then (((knapTableK widths duals capacity).getD w ((0 : ℚ), none)).1, w)
          else cur) init).1 =
        dpK widths duals
          (l.foldl
            (fun cur w =>
              if cur.1 < ((knapTableK widths duals capacity).getD w ((0 : ℚ), none)).1
              then (((knapTableK widths duals capacity).getD w ((0 : ℚ), none)).1, w)
              else cur) init).2 ∧
      (l.foldl
        (fun cur w =>
          if cur.1 < ((knapTableK widths duals capacity).getD w ((0 : ℚ), none)).1
          then (((knapTableK widths duals capacity).getD w ((0 : ℚ), none)).1, w)
          else cur) init).2 ≤ capacity := by
    intro l
    induction l with
    | nil => intro _ init h1 h2; exact ⟨h1, h2⟩
    | cons j t ih =>
      intro hl init h1 h2
      rw [List.foldl_cons]
      have hj : j ≤ capacity := hl j (List.mem_cons_self j t)
      have htail := fun init h1 h2 =>
        ih (fun x hx => hl x (List.mem_cons_of_mem j hx)) init h1 h2
      split
      · refine htail _ ?_ hj
        dsimp only
        rw [knapTableK_getD_stable widths duals capacity j hj,
          knapTableK_getD_self]
      · exact htail _ h1 h2
  refine this _ ?_ ((0 : ℚ), 0) rfl (Nat.zero_le _)
  intro x hx
  rw [List.mem_range'] at hx
  obtain ⟨i, hi, rfl⟩ := hx
  omega

/-- The best-value scan result is at least every dp value it visits. -/
theorem bestPairK_ge (widths : List ℕ) (duals : List ℚ) (capacity w : ℕ)
    (h1 : 1 ≤ w) (h2 : w ≤ capacity) :
    dpK widths duals w ≤ (bestPairK widths duals capacity).1 := by
  unfold bestPairK
  dsimp only
  have hstep : ∀ (init : ℚ × ℕ) (x : ℕ), init.1 ≤
      ((fun (cur : ℚ × ℕ) w =>
        if cur.1 < ((knapTableK widths duals capacity).getD w ((0 : ℚ), none)).1
        then (((knapTableK widths duals capacity).getD w ((0 : ℚ), none)).1, w)
        else cur) init x).1 := by
    intro init x
    dsimp only
    split
    · next hlt => exact le_of_lt hlt
    · exact le_refl _
  have hmono : ∀ (l : List ℕ) (init : ℚ × ℕ), init.1 ≤
      (l.foldl
        (fun cur w =>
          if cur.1 < ((knapTableK widths duals capacity).getD w ((0 : ℚ), none)).1
          then (((knapTableK widths duals capacity).getD w ((0 : ℚ), none)).1, w)
          else cur) init).1 := by
    intro l
    induction l with
    | nil => intro init; exact le_refl _
    | cons j t ih => intro init; exact le_trans (hstep init j) (ih _)
  have hvisit : ∀ (l : List ℕ) (init : ℚ × ℕ), w ∈ l →
      dpK widths duals w ≤
      (l.foldl
        (fun cur u =>
          if cur.1 < ((knapTableK widths duals capacity).getD u ((0 : ℚ), none)).1
          then (((knapTableK widths duals capacity).getD u ((0 : ℚ), none)).1, u)
          else cur) init).1 := by
    intro l
    induction l with
    | nil => intro init hmem; cases hmem
    | cons j t ih =>
      intro init hmem
      rw [List.foldl_cons]
      rcases List.mem_cons.mp hmem with rfl | hmem'
      · refine le_trans ?_ (hmono t _)
        have hcell : ((knapTableK widths duals capacity).getD w ((0 : ℚ), none)).1 =
            dpK widths duals w := by
          rw [knapTableK_getD_stable widths duals capacity w h2,
            knapTableK_getD_self]
        split
        · next hlt => rw [hcell]
        · next hnlt =>
          rw [hcell] at hnlt
          exact le_of_not_lt hnlt
      · exact ih _ hmem'
  refine hvisit _ _ ?_
  rw [List.mem_range']
  exact ⟨w - 1, by omega, by omega⟩

/-- For positive widths the KnapsackPricer best value equals dp at full
capacity: the dp array is monotone in w. -/
theorem bestPairK_eq_dpK (widths : List ℕ) (duals : List ℚ) (capacity : ℕ)
    (hw : ∀ x ∈ widths, 0 < x) :
    (bestPairK widths duals capacity).1 = dpK widths duals capacity := by
  cases capacity with
  | zero => rfl
  | succ c =>
    obtain ⟨h1, h2⟩ := bestPairK_invariant widths duals (c + 1)
    refine le_antisymm ?_ ?_
    · rw [h1]
      exact dpK_mono widths duals hw _ _ h2
    · exact bestPairK_ge widths duals (c + 1) (c + 1) (by omega) (le_refl _)

/-- With positive widths the item scan at capacity 0 is a no-op: no item
fits, so the cell keeps its initialization. -/
theorem knapScan_zero (widths : List ℕ) (duals : List ℚ) (dpLow : ℕ → ℚ)
    (hw : ∀ x ∈ widths, 0 < x) :
    knapScan widths duals dpLow 0 = ((0 : ℚ), none) := by
  unfold knapScan
  have : ∀ (l : List ℕ), (∀ i ∈ l, i < widths.length) →
      ∀ init, l.foldl (scanStep widths duals dpLow 0) init = init := by
    intro l
    induction l with
    | nil => intro _ init; rfl
    | cons j t ih =>
      intro hl init
      have hj : j < widths.length := hl j (List.mem_cons_self j t)
      have hpos : 0 < widths.getD j 0 := by
        have hmem : widths.getD j 0 ∈ widths := by
          rw [List.getD_eq_getElem widths 0 hj]
          exact List.getElem_mem hj
        exact hw _ hmem
      have hstep : scanStep widths duals dpLow 0 init j = init := by
        unfold scanStep
        dsimp only
        rw [if_neg (by omega)]
      rw [List.foldl_cons, hstep,
        ih (fun x hx => hl x (List.mem_cons_of_mem j hx)) init]
  exact this _ (fun i hi => List.mem_range.mp hi) _

/-- With positive widths the two DP tables coincide: the only difference
between the sources is that solveKnapsack also scans cell 0, and that
scan does nothing when no item has width 0. -/
theorem knapTableC_eq_knapTableK (widths : List ℕ) (duals : List ℚ)
    (hw : ∀ x ∈ widths, 0 < x) (W : ℕ) :
    knapTableC widths duals W = knapTableK widths duals W := by
  induction W with
  | zero =>
    show [knapScan widths duals (fun _ => (0 : ℚ)) 0] = [((0 : ℚ), none)]
    rw [knapScan_zero widths duals _ hw]
  | succ W ih =>
    show knapTableC widths duals W ++ _ = knapTableK widths duals W ++ _
    rw [ih]

/-- Shared helper for the refinement claim: for positive widths the best
value found by KnapsackPricer (max over all fills) equals the value
dp[W] returned by CuttingStockPricer::solveKnapsack. -/
theorem bestValue_agreement (widths : List ℕ) (capacity : ℕ) (duals : List ℚ)
    (hw : ∀ x ∈ widths, 0 < x) :
    (bestPairK widths duals capacity).1 =
      (solveKnapsack widths capacity duals).2 := by
  have hval : (solveKnapsack widths capacity duals).2 =
      dpK widths duals capacity := by
    show ((knapTableC widths duals capacity).getD capacity ((0 : ℚ), none)).1 = _
    rw [knapTableC_eq_knapTableK widths duals hw capacity,
      knapTableK_getD_stable widths duals capacity capacity (le_refl _),
      knapTableK_getD_self]
  rw [hval]
  exact bestPairK_eq_dpK widths duals capacity hw

theorem patternValue_replicate (duals : List ℚ) (n : ℕ) :
    patternValue duals (List.replicate n 0) = 0 := by
  induction n generalizing duals with
  | zero => cases duals <;> rfl
  | succ n ih =>
    rw [List.replicate_succ]
    cases duals with
    | nil =>
      show patternValue [] (List.replicate n 0) = 0
      exact ih []
    | cons d ds =>
      show d * ((0 : ℕ) : ℚ) + patternValue ds (List.replicate n 0) = 0
      rw [ih ds]
      push_cast
      ring

theorem patternValue_set (duals : List ℚ) (pat : List ℕ) (i : ℕ)
    (h : i < pat.length) :
    patternValue duals (pat.set i (pat.getD i 0 + 1)) =
      patternValue duals pat + duals.getD i 0 := by
  induction pat generalizing duals i with
  | nil => cases h
  | cons p ps ih =>
    cases i with
    | zero =>
      cases duals with
      | nil =>
        show patternValue [] ps = patternValue [] (p :: ps) + 0
        rw [add_zero]
        rfl
      | cons d ds =>
        show d * ((p + 1 : ℕ) : ℚ) + patternValue ds ps =
          d * (p : ℚ) + patternValue ds ps + d
        push_cast
        ring
    | succ i =>
      have hi : i < ps.length := Nat.lt_of_succ_lt_succ h
      cases duals with
      | nil =>
        show patternValue [] (ps.set i (ps.getD i 0 + 1)) =
          patternValue [] (p :: ps) + 0
        rw [add_zero]
        show patternValue [] (ps.set i (ps.getD i 0 + 1)) = patternValue [] ps
        rw [ih [] i hi]
        show patternValue [] ps + 0 = patternValue [] ps
        rw [add_zero]
      | cons d ds =>
        show d * (p : ℚ) + patternValue ds (ps.set i (ps.getD i 0 + 1)) =
          d * (p : ℚ) + patternValue ds ps + ds.getD i 0
        rw [ih ds i hi]
        ring

/-- Value accounting for the reconstruction walk: starting at width w with
enough fuel, the dual value added along the walk is exactly dp[w]. -/
theorem rebuild_value (widths : List ℕ) (duals : List ℚ)
    (hw : ∀ x ∈ widths, 0 < x) :
    ∀ (fuel w : ℕ) (pat : List ℕ) (itemF : ℕ → Option ℕ),
      w ≤ fuel → pat.length = widths.length →
      (∀ u, u ≤ w → itemF u = itemK widths duals u) →
      patternValue duals (rebuild widths itemF fuel w pat) =
        patternValue duals pat + dpK widths duals w := by
  intro fuel
  induction fuel with
  | zero =>
    intro w pat itemF hfuel hlen hitem
    have hw0 : w = 0 := Nat.le_zero.mp hfuel
    subst hw0
    rw [dpK_zero, add_zero]
    rfl
  | succ fuel ih =>
    intro w pat itemF hfuel hlen hitem
    show patternValue duals
        (if w = 0 then pat
         else match itemF w with
           | none => pat
           | some i =>
             rebuild widths itemF fuel (w - widths.getD i 0)
               (pat.set i (pat.getD i 0 + 1))) = _
    by_cases hw0 : w = 0
    · subst hw0
      rw [if_pos rfl, dpK_zero, add_zero]
    · rw [if_neg hw0]
      rw [hitem w (le_refl w)]
      cases hI : itemK widths duals w with
      | none =>
        rw [itemK_none_dpK widths duals w hw hI, add_zero]
      | some i =>
        obtain ⟨hi, hle, heq⟩ := itemK_some_dpK widths duals w i hw hI
        have hpos : 0 < widths.getD i 0 := by
          have hmem : widths.getD i 0 ∈ widths := by
            rw [List.getD_eq_getElem widths 0 hi]
            exact List.getElem_mem hi
          exact hw _ hmem
        have hrec := ih (w - widths.getD i 0) (pat.set i (pat.getD i 0 + 1))
          itemF (by omega) (by rw [List.length_set]; exact hlen)
          (fun u hu => hitem u (by omega))
        rw [hrec, patternValue_set duals pat i (by omega), heq]
        ring

/-- Shared helper for the reduced-cost identity: the value of the
reconstructed pattern equals the best value, so the returned reduced cost
is 1 minus the pattern's dual value. -/
theorem reducedCost_identity (widths : List ℕ) (capacity : ℕ)
    (duals : List ℚ) (hw : ∀ x ∈ widths, 0 < x) :
    (solvePricingProblem widths capacity duals).2 =
      1 - patternValue duals (solvePricingProblem widths capacity duals).1 := by
  obtain ⟨hval, hbound⟩ := bestPairK_invariant widths duals capacity
  have hsnd : (solvePricingProblem widths capacity duals).2 =
      1 - (bestPairK widths duals capacity).1 := rfl
  have hfst : (solvePricingProblem widths capacity duals).1 =
      rebuild widths
        (fun u => ((knapTableK widths duals capacity).getD u ((0 : ℚ), none)).2)
        (bestPairK widths duals capacity).2 (bestPairK widths duals capacity).2
        (List.replicate widths.length 0) := rfl
  rw [hsnd, hfst]
  rw [rebuild_value widths duals hw _ _ _ _ (le_refl _)
    (List.length_replicate _ _)
    (fun u hu => by
      rw [knapTableK_getD_stable widths duals capacity u (le_trans hu hbound),
        knapTableK_getD_self])]
  rw [patternValue_replicate, zero_add, hval]

/- ------------------------------------------------------------------
   Lemmas about the checked knapsack pricing.
------------------------------------------------------------------ -/

theorem foldl_scanStepE_none (widths : List ℕ) (duals : List ℚ)
    (dpLow : ℕ → ℚ) (w : ℕ) (l : List ℕ) :
    l.foldl (scanStepE widths duals dpLow w) none = none := by
  induction l with
  | nil => rfl
  | cons j t ih => exact ih

theorem foldl_scanStepE_some (widths : List ℕ) (duals : List ℚ)
    (dpLow : ℕ → ℚ) (w : ℕ) (l : List ℕ)
    (hl : ∀ i ∈ l, widths.getD i 0 ≤ w → i < duals.length) :
    ∀ cur, l.foldl (scanStepE widths duals dpLow w) (some cur) =
      some (l.foldl (scanStep widths duals dpLow w) cur) := by
  induction l with
  | nil => intro cur; rfl
  | cons j t ih =>
    intro cur
    have hstep : scanStepE widths duals dpLow w (some cur) j =
        some (scanStep widths duals dpLow w cur j) := by
      unfold scanStepE scanStep
      dsimp only [Option.bind]
      split
      · next hle =>
        have hj : j < duals.length := hl j (List.mem_cons_self j t) hle
        rw [List.get?_eq_getElem?, List.getElem?_eq_getElem hj]
        dsimp only [Option.map]
        rw [List.getD_eq_getElem duals 0 hj]
      · rfl
    rw [List.foldl_cons, List.foldl_cons, hstep,
      ih (fun x hx => hl x (List.mem_cons_of_mem j hx)) _]

theorem foldl_scanStepE_fail (widths : List ℕ) (duals : List ℚ)
    (dpLow : ℕ → ℚ) (w : ℕ) (l : List ℕ) (i : ℕ) (hi : i ∈ l)
    (hle : widths.getD i 0 ≤ w) (hlen : duals.length ≤ i) :
    ∀ acc, l.foldl (scanStepE widths duals dpLow w) acc = none := by
  induction l with
  | nil => cases hi
  | cons j t ih =>
    intro acc
    rcases List.mem_cons.mp hi with rfl | hmem
    · rw [List.foldl_cons]
      cases acc with
      | none => exact foldl_scanStepE_none widths duals dpLow w t
      | some cur =>
        have hstep : scanStepE widths duals dpLow w (some cur) i = none := by
          unfold scanStepE
          dsimp only [Option.bind]
          rw [if_pos hle, List.get?_eq_none.mpr hlen]
          rfl
        rw [hstep]
        exact foldl_scanStepE_none widths duals dpLow w t
    · rw [List.foldl_cons]
      exact ih hmem _

theorem knapScanE_eq_none_iff (widths : List ℕ) (duals : List ℚ)
    (dpLow : ℕ → ℚ) (w : ℕ) :
    knapScanE widths duals dpLow w = none ↔
      ∃ i < widths.length, widths.getD i 0 ≤ w ∧ duals.length ≤ i := by
  constructor
  · intro hnone
    by_contra hno
    push_neg at hno
    have := foldl_scanStepE_some widths duals dpLow w (List.range widths.length)
      (fun i hi hle => by
        have hi' := List.mem_range.mp hi
        by_contra hge
        exact absurd (hno i hi' hle) (by omega)) ((0 : ℚ), none)
    rw [knapScanE] at hnone
    rw [this] at hnone
    cases hnone
  · intro ⟨i, hi, hle, hlen⟩
    exact foldl_scanStepE_fail widths duals dpLow w _ i
      (List.mem_range.mpr hi) hle hlen _

theorem knapScanE_eq_some (widths : List ℕ) (duals : List ℚ)
    (dpLow : ℕ → ℚ) (w : ℕ) (h : ∀ i < widths.length, i < duals.length) :
    knapScanE widths duals dpLow w = some (knapScan widths duals dpLow w) :=
  foldl_scanStepE_some widths duals dpLow w _
    (fun i hi _ => h i (List.mem_range.mp hi)) _

theorem knapTableKE_eq_some (widths : List ℕ) (duals : List ℚ)
    (h : ∀ i < widths.length, i < duals.length) (W : ℕ) :
    knapTableKE widths duals W = some (knapTableK widths duals W) := by
  induction W with
  | zero => rfl
  | succ W ih =>
    show (knapTableKE widths duals W).bind _ = _
    rw [ih]
    show (knapScanE widths duals _ (W + 1)).map _ = _
    rw [knapScanE_eq_some widths duals _ (W + 1) h]
    rfl

theorem knapTableKE_eq_none_iff (widths : List ℕ) (duals : List ℚ) (W : ℕ) :
    knapTableKE widths duals W = none ↔
      ∃ i < widths.length, duals.length ≤ i ∧ widths.getD i 0 ≤ W ∧ 1 ≤ W := by
  induction W with
  | zero =>
    constructor
    · intro h
      cases h
    · intro ⟨i, _, _, _, h1⟩
      omega
  | succ W ih =>
    constructor
    · intro hnone
      rw [show knapTableKE widths duals (W + 1) =
          (knapTableKE widths duals W).bind (fun t =>
            (knapScanE widths duals
              (fun u => (t.getD u ((0 : ℚ), none)).1) (W + 1)).map
              (fun cell => t ++ [cell])) from rfl] at hnone
      cases htab : knapTableKE widths duals W with
      | none =>
        obtain ⟨i, hi, hlen, hle, h1⟩ := ih.mp htab
        exact ⟨i, hi, hlen, by omega, by omega⟩
      | some t =>
        rw [htab] at hnone
        dsimp only [Option.bind] at hnone
        cases hscan : knapScanE widths duals
            (fun u => (t.getD u ((0 : ℚ), none)).1) (W + 1) with
        | none =>
          obtain ⟨i, hi, hle, hlen⟩ := (knapScanE_eq_none_iff widths duals _ _).mp hscan
          exact ⟨i, hi, hlen, hle, by omega⟩
        | some cell =>
          rw [hscan] at hnone
          cases hnone
    · intro ⟨i, hi, hlen, hle, _⟩
      rw [show knapTableKE widths duals (W + 1) =
          (knapTableKE widths duals W).bind (fun t =>
            (knapScanE widths duals
              (fun u => (t.getD u ((0 : ℚ), none)).1) (W + 1)).map
              (fun cell => t ++ [cell])) from rfl]
      cases htab : knapTableKE widths duals W with
      | none => rfl
      | some t =>
        dsimp only [Option.bind]
        rw [(knapScanE_eq_none_iff widths duals _ _).mpr ⟨i, hi, by omega, hlen⟩]
        rfl

theorem solvePricingProblemE_eq_none_iff (widths : List ℕ) (capacity : ℕ)
    (duals : List ℚ) :
    solvePricingProblemE widths capacity duals = none ↔
      ∃ i < widths.length, duals.length ≤ i ∧
        widths.getD i 0 ≤ capacity ∧ 1 ≤ capacity := by
  rw [← knapTableKE_eq_none_iff widths duals capacity]
  show (knapTableKE widths duals capacity).map _ = none ↔ _
  cases knapTableKE widths duals capacity with
  | none => exact ⟨fun _ => rfl, fun _ => rfl⟩
  | some t =>
    constructor
    · intro h
      cases h
    · intro h
      cases h

theorem solvePricingProblemE_eq_some (widths : List ℕ) (capacity : ℕ)
    (duals : List ℚ) (h : duals.length = widths.length) :
    solvePricingProblemE widths capacity duals =
      some (solvePricingProblem widths capacity duals) := by
  show (knapTableKE widths duals capacity).map _ = _
  rw [knapTableKE_eq_some widths duals (fun i hi => by omega) capacity]
  rfl

/- ------------------------------------------------------------------
   Lemmas about the column generation loop.
------------------------------------------------------------------ -/

theorem cgStep_fst (widths : List ℕ) (capacity : ℕ) (tol : ℚ)
    (dualsAt : ℕ → List ℚ) (it : ℕ) (cols : List (List ℕ)) :
    (cgStep widths capacity tol dualsAt it cols).1 = true ↔
      (solvePricingProblem widths capacity (dualsAt it)).2 < -tol := by
  unfold cgStep
  dsimp only
  split
  · next h => exact ⟨(fun _ => h), (fun _ => rfl)⟩
  · next h => exact ⟨(fun hfalse => by cases hfalse), (fun hlt => absurd hlt h)⟩

theorem cgStep_snd (widths : List ℕ) (capacity : ℕ) (tol : ℚ)
    (dualsAt : ℕ → List ℚ) (it : ℕ) (cols : List (List ℕ)) :
    (cgStep widths capacity tol dualsAt it cols).2 = cols ∨
      (cgStep widths capacity tol dualsAt it cols).2 =
        cols ++ [(solvePricingProblem widths capacity (dualsAt it)).1] := by
  unfold cgStep
  dsimp only
  split
  · exact Or.inr rfl
  · exact Or.inl rfl

theorem cgAux_spec (widths : List ℕ) (capacity : ℕ) (tol : ℚ) (maxIter : ℕ)
    (dualsAt : ℕ → List ℚ) :
    ∀ (fuel iteration : ℕ) (cols : List (List ℕ)),
      iteration < maxIter → maxIter ≤ fuel + iteration →
      iteration < (cgAux widths capacity tol maxIter dualsAt fuel iteration cols).2.1 ∧
      (cgAux widths capacity tol maxIter dualsAt fuel iteration cols).2.1 ≤ maxIter ∧
      ((cgAux widths capacity tol maxIter dualsAt fuel iteration cols).1 = true ↔
        ¬ (solvePricingProblem widths capacity
            (dualsAt (cgAux widths capacity tol maxIter dualsAt fuel iteration cols).2.1)).2
          < -tol) ∧
      ((cgAux widths capacity tol maxIter dualsAt fuel iteration cols).1 = false →
        (cgAux widths capacity tol maxIter dualsAt fuel iteration cols).2.1 = maxIter) ∧
      (∀ k, iteration < k →
        k < (cgAux widths capacity tol maxIter dualsAt fuel iteration cols).2.1 →
        (solvePricingProblem widths capacity (dualsAt k)).2 < -tol) := by
  intro fuel
  induction fuel with
  | zero =>
    intro iteration cols hlt hge
    omega
  | succ fuel ih =>
    intro iteration cols hlt hge
    have hiff := cgStep_fst widths capacity tol dualsAt (iteration + 1) cols
    simp only [cgAux]
    by_cases hcap : maxIter ≤ iteration + 1
    · rw [if_pos hcap]
      dsimp only
      refine ⟨by omega, by omega, ?_, (fun _ => by omega), (fun k hk1 hk2 => by omega)⟩
      cases hstep : (cgStep widths capacity tol dualsAt (iteration + 1) cols).1 with
      | true =>
        exact iff_of_false (by simp) (not_not_intro (hiff.mp hstep))
      | false =>
        refine iff_of_true rfl ?_
        intro hpr
        have := hiff.mpr hpr
        rw [hstep] at this
        cases this
    · rw [if_neg hcap]
      cases hstep : (cgStep widths capacity tol dualsAt (iteration + 1) cols).1 with
      | true =>
        dsimp only
        have hrec := ih (iteration + 1)
          (cgStep widths capacity tol dualsAt (iteration + 1) cols).2
          (by omega) (by omega)
        obtain ⟨r1, r2, r3, r4, r5⟩ := hrec
        refine ⟨by omega, r2, r3, r4, ?_⟩
        intro k hk1 hk2
        rcases Nat.lt_or_ge k (iteration + 2) with hk | hk
        · have hkeq : k = iteration + 1 := by omega
          subst hkeq
          exact hiff.mp hstep
        · exact r5 k (by omega) hk2
      | false =>
        dsimp only
        refine ⟨by omega, by omega, ?_, ?_, ?_⟩
        · refine iff_of_true rfl ?_
          intro hpr
          have := hiff.mpr hpr
          rw [hstep] at this
          cases this
        · intro hfalse
          cases hfalse
        · intro k hk1 hk2
          omega

theorem generateColumns_spec (widths : List ℕ) (capacity : ℕ) (tol : ℚ)
    (maxIter : ℕ) (dualsAt : ℕ → List ℚ) (cols0 : List (List ℕ))
    (hmax : 1 ≤ maxIter) :
    1 ≤ (generateColumns widths capacity tol maxIter dualsAt cols0).2.1 ∧
    (generateColumns widths capacity tol maxIter dualsAt cols0).2.1 ≤ maxIter ∧
    ((generateColumns widths capacity tol maxIter dualsAt cols0).1 = true ↔
      ¬ (solvePricingProblem widths capacity
          (dualsAt (generateColumns widths capacity tol maxIter dualsAt cols0).2.1)).2
        < -tol) ∧
    ((generateColumns widths capacity tol maxIter dualsAt cols0).1 = false →
      (generateColumns widths capacity tol maxIter dualsAt cols0).2.1 = maxIter) ∧
    (∀ k, 1 ≤ k →
      k < (generateColumns widths capacity tol maxIter dualsAt cols0).2.1 →
      (solvePricingProblem widths capacity (dualsAt k)).2 < -tol) := by
  have h := cgAux_spec widths capacity tol maxIter dualsAt maxIter 0 cols0
    (by omega) (by omega)
  obtain ⟨r1, r2, r3, r4, r5⟩ := h
  exact ⟨r1, r2, r3, r4, (fun k hk1 hk2 => r5 k (by omega) hk2)⟩

theorem cgAux_cols_extend (widths : List ℕ) (capacity : ℕ) (tol : ℚ)
    (maxIter : ℕ) (dualsAt : ℕ → List ℚ) :
    ∀ (fuel iteration : ℕ) (cols : List (List ℕ)),
      ∃ rest, (cgAux widths capacity tol maxIter dualsAt fuel iteration cols).2.2 =
        cols ++ rest := by
  intro fuel
  induction fuel with
  | zero =>
    intro iteration cols
    have hbase : ∃ rest0, (cgStep widths capacity tol dualsAt (iteration + 1) cols).2 =
        cols ++ rest0 := by
      rcases cgStep_snd widths capacity tol dualsAt (iteration + 1) cols with hsame | happ
      · exact ⟨[], by rw [hsame, List.append_nil]⟩
      · exact ⟨_, happ⟩
    obtain ⟨rest0, hrest0⟩ := hbase
    simp only [cgAux]
    split
    · exact ⟨rest0, hrest0⟩
    · cases hstep : (cgStep widths capacity tol dualsAt (iteration + 1) cols).1 with
      | true => exact ⟨rest0, hrest0⟩
      | false => exact ⟨rest0, hrest0⟩
  | succ fuel ih =>
    intro iteration cols
    have hbase : ∃ rest0, (cgStep widths capacity tol dualsAt (iteration + 1) cols).2 =
        cols ++ rest0 := by
      rcases cgStep_snd widths capacity tol dualsAt (iteration + 1) cols with hsame | happ
      · exact ⟨[], by rw [hsame, List.append_nil]⟩
      · exact ⟨_, happ⟩
    obtain ⟨rest0, hrest0⟩ := hbase
    simp only [cgAux]
    split
    · exact ⟨rest0, hrest0⟩
    · cases hstep : (cgStep widths capacity tol dualsAt (iteration + 1) cols).1 with
      | true =>
        dsimp only
        obtain ⟨rest1, hrest1⟩ := ih (iteration + 1)
          (cgStep widths capacity tol dualsAt (iteration + 1) cols).2
        refine ⟨rest0 ++ rest1, ?_⟩
        rw [hrest1, hrest0, List.append_assoc]
      | false =>
        exact ⟨rest0, hrest0⟩

/- ------------------------------------------------------------------
   Lemmas about master-problem construction and the SPPRC loop.
------------------------------------------------------------------ -/

theorem setup_foldl_error (demands : List ℤ) (l : List ℕ) (e : String) :
    l.foldl
      (fun acc i =>
        acc.bind fun cs =>
          (scipConstraintNew (String.append "demand_" (toString i)) [] []
              (demands.getD i 0 : ℚ) scipInfinity).map
            fun c => cs ++ [c])
      (Except.error e) = Except.error e := by
  induction l with
  | nil => rfl
  | cons j t ih => exact ih

theorem setupMasterProblem_error (numItems : ℕ) (demands : List ℤ)
    (h : 0 < numItems) :
    setupMasterProblem numItems demands =
      Except.error "Constraint must have at least one variable" := by
  obtain ⟨m, rfl⟩ : ∃ m, numItems = m + 1 := ⟨numItems - 1, by omega⟩
  unfold setupMasterProblem
  rw [List.range_succ_eq_map]
  rw [List.foldl_cons]
  have hfirst :
      ((Except.ok [] : Except String (List MasterConstraint)).bind fun cs =>
        (scipConstraintNew (String.append "demand_" (toString 0)) [] []
            (demands.getD 0 0 : ℚ) scipInfinity).map
          fun c => cs ++ [c]) =
      Except.error "Constraint must have at least one variable" := rfl
  rw [hfirst]
  exact setup_foldl_error demands _ _

theorem cuttingStockSolverNew_error (widths : List ℕ) (demands : List ℤ)
    (capacity : ℕ) (hlen : widths.length = demands.length)
    (hpos : 0 < widths.length) :
    cuttingStockSolverNew widths demands capacity =
      Except.error "Constraint must have at least one variable" := by
  unfold cuttingStockSolverNew
  dsimp only
  rw [if_neg (by omega)]
  rw [setupMasterProblem_error widths.length demands hpos]
  rfl

theorem solveLoop_single (limits : List SpprcResourceWindow)
    (graph : List (List (ℕ × SpprcArc))) (source : ℕ)
    (st : List (List SpprcLabel)) :
    ∀ fuel : ℕ, solveLoop limits graph (fuel + 1) [source] st =
      solveLoop limits graph 1 [source] st := by
  intro fuel
  show solveLoop limits graph fuel []
      ((((graph.getD source []).foldl
          (fun s pa => extendLabel limits s source pa.1 pa.2) st).set source
        (applyDominance limits
          (((graph.getD source []).foldl
            (fun s pa => extendLabel limits s source pa.1 pa.2) st).getD source [])))) =
    solveLoop limits graph 0 []
      ((((graph.getD source []).foldl
          (fun s pa => extendLabel limits s source pa.1 pa.2) st).set source
        (applyDominance limits
          (((graph.getD source []).foldl
            (fun s pa => extendLabel limits s source pa.1 pa.2) st).getD source []))))
  cases fuel <;> rfl

theorem spprcSolve_terminates (limits : List SpprcResourceWindow)
    (graph : List (List (ℕ × SpprcArc))) (numNodes source sink : ℕ) :
    ∃ stf, ∀ fuel : ℕ,
      spprcSolve limits graph numNodes source sink (fuel + 1) = some stf := by
  cases hrun : spprcSolve limits graph numNodes source sink 1 with
  | none =>
    exfalso
    unfold spprcSolve solveLoop at hrun
    revert hrun
    cases h : solveLoop limits graph 0 [] _ with
    | none => simp [solveLoop] at h
    | some st => intro hrun; cases hrun
  | some stf =>
    refine ⟨stf, ?_⟩
    intro fuel
    rw [show spprcSolve limits graph numNodes source sink (fuel + 1) =
        spprcSolve limits graph numNodes source sink 1 from
      solveLoop_single limits graph source _ fuel]
    exact hrun

/- ------------------------------------------------------------------
   Claim theorems.
------------------------------------------------------------------ -/

/-- Claim C1: for every dual vector whose length equals the number of
items (and positive item widths, the problem-input contract), the
(pattern, reducedCost) pair returned by KnapsackPricer::solvePricingProblem
satisfies reducedCost = 1 - sum over i of duals[i] * pattern[i] exactly,
the reduced-cost identity recomputed independently from the
reconstructed pattern. -/
theorem C1_reduced_cost_identity (widths : List ℕ) (capacity : ℕ)
    (duals : List ℚ) (hw : ∀ x ∈ widths, 0 < x)
    (hlen : duals.length = widths.length) :
    (solvePricingProblem widths capacity duals).2 =
      1 - patternValue duals (solvePricingProblem widths capacity duals).1 := by
  have _ := hlen
  exact reducedCost_identity widths capacity duals hw

/-- Witness for claim C1 at widths [2, 3], capacity 5, duals [1, 1]. -/
theorem C1_witness :
    (∀ x ∈ ([2, 3] : List ℕ), 0 < x) ∧
    ([1, 1] : List ℚ).length = ([2, 3] : List ℕ).length ∧
    (solvePricingProblem [2, 3] 5 [1, 1]).2 =
      1 - patternValue [1, 1] (solvePricingProblem [2, 3] 5 [1, 1]).1 :=
  ⟨by decide, rfl, C1_reduced_cost_identity [2, 3] 5 [1, 1] (by decide) rfl⟩

/-- Claim C2 (code bug witness): on the graph with the single arc
0 -> 1 (cost 5, consumption [1]) and window [0, 10], the unique
source-to-sink path is resource feasible (its totals are cost 5,
resources [1]), yet SPPRC::solve leaves the sink without any label: the
freshly pushed label is erased by its own dominance sweep, and no node is
ever enqueued after the source. -/
theorem C2_single_path_sink_empty :
    isFeasible [{ min_val := 0, max_val := 10, is_continuous := false }]
      { label_id := 0, node := 1, resources := [1], cost := 5,
        prev_label_id := -1, dominated := false,
        unreachable_nodes := [] } = true ∧
    (spprcSolve [{ min_val := 0, max_val := 10, is_continuous := false }]
        [[(1, { fromNode := 0, toNode := 1, cost := 5,
                resource_consumption := [1] })], []] 2 0 1 1).map
      (fun st => st.getD 1 []) = some [] := by
  constructor
  · norm_num [isFeasible, List.range_succ]
  · norm_num [spprcSolve, solveLoop, extendLabel, extendOne,
      createInitialLabel, isFeasible, isDominated, removeDominatedLabels,
      dominates, applyDominance, applyDominanceInner, List.range_succ,
      List.replicate]

/-- Claim C3 counterexample: the claimed input on which the two knapsack
best values differ does not exist; over the input contract (positive
widths) KnapsackPricer's max over all w and solveKnapsack's dp[W] always
agree, whether expressed through the internal best pair or through the
returned reduced cost. -/
theorem C3_counterexample :
    ¬ ∃ (widths : List ℕ) (capacity : ℕ) (duals : List ℚ),
      (∀ x ∈ widths, 0 < x) ∧
      ((bestPairK widths duals capacity).1 ≠
          (solveKnapsack widths capacity duals).2 ∨
        (solvePricingProblem widths capacity duals).2 ≠
          1 - (solveKnapsack widths capacity duals).2) := by
  rintro ⟨widths, capacity, duals, hpos, hne | hne⟩
  · exact hne (bestValue_agreement widths capacity duals hpos)
  · apply hne
    show 1 - (bestPairK widths duals capacity).1 = _
    rw [bestValue_agreement widths capacity duals hpos]

/-- Claim C3 amended: for every input with positive widths the best value
computed by KnapsackPricer::solvePricingProblem (maximum of dp[w] over
all w) EQUALS the best value computed by CuttingStockPricer::solveKnapsack
(dp[W] only): the dp array is monotone in w, so under-filling never beats
the full-capacity cell.  The two embeddings can disagree only outside the
input contract (an item of width 0). -/
theorem C3_amended_agreement (widths : List ℕ) (capacity : ℕ)
    (duals : List ℚ) (hw : ∀ x ∈ widths, 0 < x) :
    (bestPairK widths duals capacity).1 =
        (solveKnapsack widths capacity duals).2 ∧
      (solvePricingProblem widths capacity duals).2 =
        1 - (solveKnapsack widths capacity duals).2 := by
  refine ⟨bestValue_agreement widths capacity duals hw, ?_⟩
  show 1 - (bestPairK widths duals capacity).1 = _
  rw [bestValue_agreement widths capacity duals hw]

/-- Witness for the amended claim C3 at widths [2], capacity 3,
duals [1]: the optimal fill (one item, width 2) is strictly below
capacity 3, and both best values are 1. -/
theorem C3_witness :
    (∀ x ∈ ([2] : List ℕ), 0 < x) ∧
    ((bestPairK [2] [1] 3).1 = (solveKnapsack [2] 3 [1]).2 ∧
      (solvePricingProblem [2] 3 [1]).2 = 1 - (solveKnapsack [2] 3 [1]).2) :=
  ⟨by decide, C3_amended_agreement [2] 3 [1] (by decide)⟩

/-- Claim C4 (code bug witness): extending the initial label along the
arc 0 -> 1 (cost 5, consumption [1]) with window [0, 10] produces a new
label that is feasible and not dominated by any label at node 1 (the node
is empty), yet after the push and the removeDominatedLabels sweep node 1
is empty again: the sweep erases the new label itself, because the
dominance relation is reflexive. -/
theorem C4_new_label_not_retained :
    isFeasible [{ min_val := 0, max_val := 10, is_continuous := false }]
      { label_id := 0, node := 1, resources := [1], cost := 5,
        prev_label_id := -1, dominated := false,
        unreachable_nodes := [] } = true ∧
    isDominated [{ min_val := 0, max_val := 10, is_continuous := false }]
      [[createInitialLabel
          [{ min_val := 0, max_val := 10, is_continuous := false }] 0], []]
      { label_id := 0, node := 1, resources := [1], cost := 5,
        prev_label_id := -1, dominated := false,
        unreachable_nodes := [] } 1 = false ∧
    removeDominatedLabels
      [{ min_val := 0, max_val := 10, is_continuous := false }]
      [{ label_id := 0, node := 1, resources := [1], cost := 5,
         prev_label_id := -1, dominated := false,
         unreachable_nodes := [] }]
      { label_id := 0, node := 1, resources := [1], cost := 5,
        prev_label_id := -1, dominated := false,
        unreachable_nodes := [] } = [] ∧
    (extendLabel [{ min_val := 0, max_val := 10, is_continuous := false }]
        [[createInitialLabel
            [{ min_val := 0, max_val := 10, is_continuous := false }] 0], []]
        0 1
        { fromNode := 0, toNode := 1, cost := 5,
          resource_consumption := [1] }).getD 1 [] = [] := by
  refine ⟨?_, ?_, ?_, ?_⟩
  · norm_num [isFeasible, List.range_succ]
  · norm_num [isDominated, createInitialLabel, List.replicate]
  · norm_num [removeDominatedLabels, dominates, List.range_succ,
      List.filter]
  · norm_num [extendLabel, extendOne, createInitialLabel, isFeasible,
      isDominated, removeDominatedLabels, dominates, List.range_succ,
      List.replicate, List.filter]

/-- Claim C5: with a positive iteration budget,
CuttingStockSolver::generateColumns performs between 1 and
max_iterations iterations, returns true exactly when its final pricing
call found no pattern with reduced cost below -pricing_tol, returns
false only when the iteration cap was reached (and in that situation a
column was still being added), and every non-final iteration strictly
before the stop had an improving reduced cost, so the loop stops on the
exact iteration at which pricing first fails to improve. -/
theorem C5_generateColumns_termination (widths : List ℕ) (capacity : ℕ)
    (tol : ℚ) (maxIter : ℕ) (dualsAt : ℕ → List ℚ)
    (cols0 : List (List ℕ)) (hmax : 1 ≤ maxIter) :
    1 ≤ (generateColumns widths capacity tol maxIter dualsAt cols0).2.1 ∧
    (generateColumns widths capacity tol maxIter dualsAt cols0).2.1 ≤ maxIter ∧
    ((generateColumns widths capacity tol maxIter dualsAt cols0).1 = true ↔
      ¬ (solvePricingProblem widths capacity
          (dualsAt (generateColumns widths capacity tol maxIter dualsAt cols0).2.1)).2
        < -tol) ∧
    ((generateColumns widths capacity tol maxIter dualsAt cols0).1 = false →
      (generateColumns widths capacity tol maxIter dualsAt cols0).2.1 = maxIter) ∧
    (∀ k, 1 ≤ k →
      k < (generateColumns widths capacity tol maxIter dualsAt cols0).2.1 →
      (solvePricingProblem widths capacity (dualsAt k)).2 < -tol) :=
  generateColumns_spec widths capacity tol maxIter dualsAt cols0 hmax

/-- Witness for claim C5 at a one-item instance with zero duals and
budget 1: the loop runs exactly one iteration and converges. -/
theorem C5_witness :
    (1 : ℕ) ≤ 1 ∧
    (1 ≤ (generateColumns [1] 1 (1 / 1000000) 1 (fun _ => [0]) []).2.1 ∧
    (generateColumns [1] 1 (1 / 1000000) 1 (fun _ => [0]) []).2.1 ≤ 1 ∧
    ((generateColumns [1] 1 (1 / 1000000) 1 (fun _ => [0]) []).1 = true ↔
      ¬ (solvePricingProblem [1] 1
          ((fun _ => [0] : ℕ → List ℚ)
            (generateColumns [1] 1 (1 / 1000000) 1 (fun _ => [0]) []).2.1)).2
        < -(1 / 1000000)) ∧
    ((generateColumns [1] 1 (1 / 1000000) 1 (fun _ => [0]) []).1 = false →
      (generateColumns [1] 1 (1 / 1000000) 1 (fun _ => [0]) []).2.1 = 1) ∧
    (∀ k, 1 ≤ k →
      k < (generateColumns [1] 1 (1 / 1000000) 1 (fun _ => [0]) []).2.1 →
      (solvePricingProblem [1] 1 ((fun _ => [0] : ℕ → List ℚ) k)).2
        < -(1 / 1000000))) :=
  ⟨le_refl 1,
    C5_generateColumns_termination [1] 1 (1 / 1000000) 1 (fun _ => [0]) []
      (le_refl 1)⟩

/-- Claim C6 counterexample: a duals vector shorter than the item count
on which evaluation never reaches an out-of-range duals access: with a
single item of width 5 and capacity 3 no item fits any DP cell, so the
empty duals vector is never indexed and a result is produced. -/
theorem C6_counterexample :
    ([] : List ℚ).length < ([5] : List ℕ).length ∧
    solvePricingProblemE [5] 3 ([] : List ℚ) ≠ none := by
  constructor
  · decide
  · rw [Ne, solvePricingProblemE_eq_none_iff]
    rintro ⟨i, hi, _, hle, _⟩
    simp only [List.length_singleton] at hi
    interval_cases i
    exact absurd hle (by decide)

/-- Claim C6 amended: KnapsackPricer::solvePricingProblem fails exactly
when some item index at or beyond the duals length has width within the
(positive) capacity — i.e. exactly when an out-of-range duals access is
actually performed; a duals vector of matching length never fails and
always produces the unchecked result. -/
theorem C6_amended_failure_characterization (widths : List ℕ)
    (capacity : ℕ) (duals : List ℚ) :
    (solvePricingProblemE widths capacity duals = none ↔
      ∃ i < widths.length, duals.length ≤ i ∧
        widths.getD i 0 ≤ capacity ∧ 1 ≤ capacity) ∧
    (duals.length = widths.length →
      solvePricingProblemE widths capacity duals =
        some (solvePricingProblem widths capacity duals)) :=
  ⟨solvePricingProblemE_eq_none_iff widths capacity duals,
    fun h => solvePricingProblemE_eq_some widths capacity duals h⟩

/-- Witness for the amended claim C6 at widths [1], capacity 1,
duals [1/2]. -/
theorem C6_witness :
    (solvePricingProblemE [1] 1 [1 / 2] = none ↔
      ∃ i < ([1] : List ℕ).length, ([1 / 2] : List ℚ).length ≤ i ∧
        ([1] : List ℕ).getD i 0 ≤ 1 ∧ 1 ≤ 1) ∧
    (([1 / 2] : List ℚ).length = ([1] : List ℕ).length →
      solvePricingProblemE [1] 1 [1 / 2] =
        some (solvePricingProblem [1] 1 [1 / 2])) :=
  C6_amended_failure_characterization [1] 1 [1 / 2]

/-- Claim C7: for every input with at least one item and matching widths
and demands lengths, the CuttingStockSolver constructor throws: each
demand constraint is created with an empty variable list, which the
ScipConstraint constructor rejects, so the master problem can never be
set up through this interface. -/
theorem C7_constructor_always_throws (widths : List ℕ) (demands : List ℤ)
    (capacity : ℕ) (hlen : widths.length = demands.length)
    (hpos : 0 < widths.length) :
    cuttingStockSolverNew widths demands capacity =
      Except.error "Constraint must have at least one variable" :=
  cuttingStockSolverNew_error widths demands capacity hlen hpos

/-- Witness for claim C7 at widths [2], demands [1], capacity 3. -/
theorem C7_witness :
    ([2] : List ℕ).length = ([1] : List ℤ).length ∧
    0 < ([2] : List ℕ).length ∧
    cuttingStockSolverNew [2] [1] 3 =
      Except.error "Constraint must have at least one variable" :=
  ⟨rfl, by decide, C7_constructor_always_throws [2] [1] 3 rfl (by decide)⟩

/-- Claim C8: SPPRC::solve terminates for every finite graph whose arcs
all have nonzero resource consumption (the spec's hypothesis; in fact
the queue never grows, so one unit of loop fuel after the source's pop
always suffices and the result is independent of any extra fuel). -/
theorem C8_solve_terminates (limits : List SpprcResourceWindow)
    (graph : List (List (ℕ × SpprcArc))) (numNodes source sink : ℕ)
    (hcons : ∀ outs ∈ graph, ∀ pa ∈ outs,
      ∃ i < limits.length, (pa.2).resource_consumption.getD i 0 ≠ 0) :
    ∃ stf, ∀ fuel : ℕ,
      spprcSolve limits graph numNodes source sink (fuel + 1) = some stf := by
  have _ := hcons
  exact spprcSolve_terminates limits graph numNodes source sink

/-- Witness for claim C8 on the one-arc graph with consumption [1]. -/
theorem C8_witness :
    (∀ outs ∈ ([[(1, SpprcArc.mk 0 1 5 [1])], []] :
        List (List (ℕ × SpprcArc))), ∀ pa ∈ outs,
      ∃ i < ([SpprcResourceWindow.mk 0 10 false] :
          List SpprcResourceWindow).length,
        (pa.2).resource_consumption.getD i 0 ≠ 0) ∧
    ∃ stf, ∀ fuel : ℕ,
      spprcSolve [SpprcResourceWindow.mk 0 10 false]
        [[(1, SpprcArc.mk 0 1 5 [1])], []] 2 0 1 (fuel + 1) = some stf :=
  ⟨by decide,
    C8_solve_terminates [SpprcResourceWindow.mk 0 10 false]
      [[(1, SpprcArc.mk 0 1 5 [1])], []] 2 0 1 (by decide)⟩

/-- Claim C9: the dominance relation SPPRC::dominates is a partial
preorder on labels: every label dominates itself, and dominance is
transitive. -/
theorem C9_dominates_preorder (limits : List SpprcResourceWindow)
    (l1 l2 l3 : SpprcLabel) :
    dominates limits l1 l1 = true ∧
    (dominates limits l1 l2 = true → dominates limits l2 l3 = true →
      dominates limits l1 l3 = true) := by
  constructor
  · unfold dominates
    rw [if_neg (lt_irrefl l1.cost)]
    simp [List.all_eq_true]
  · intro h12 h23
    unfold dominates at h12 h23 ⊢
    by_cases hc12 : l2.cost < l1.cost
    · rw [if_pos hc12] at h12
      cases h12
    · rw [if_neg hc12] at h12
      by_cases hc23 : l3.cost < l2.cost
      · rw [if_pos hc23] at h23
        cases h23
      · rw [if_neg hc23] at h23
        rw [if_neg (by push_neg at hc12 hc23 ⊢; exact le_trans hc12 hc23)]
        simp only [List.all_eq_true, decide_eq_true_eq] at h12 h23 ⊢
        intro i hi
        exact le_trans (h12 i hi) (h23 i hi)

/-- Witness for claim C9 at the default label and one window. -/
theorem C9_witness :
    dominates [{ min_val := 0, max_val := 10, is_continuous := false }]
        default default = true ∧
    (dominates [{ min_val := 0, max_val := 10, is_continuous := false }]
        default default = true →
      dominates [{ min_val := 0, max_val := 10, is_continuous := false }]
        default default = true →
      dominates [{ min_val := 0, max_val := 10, is_continuous := false }]
        default default = true) :=
  C9_dominates_preorder
    [{ min_val := 0, max_val := 10, is_continuous := false }] default default
    default

/-- Claim C10: across all iterations of generateColumns the column
collection grows monotonically: each loop body either appends exactly one
new column (the priced pattern, which carries every coefficient the new
variable contributes) or leaves the collection unchanged, and the final
collection always extends the initial one — no column is ever removed or
modified. -/
theorem C10_columns_monotone (widths : List ℕ) (capacity : ℕ) (tol : ℚ)
    (maxIter : ℕ) (dualsAt : ℕ → List ℚ) :
    (∀ it cols, (cgStep widths capacity tol dualsAt it cols).2 = cols ∨
      (cgStep widths capacity tol dualsAt it cols).2 =
        cols ++ [(solvePricingProblem widths capacity (dualsAt it)).1]) ∧
    (∀ cols0, ∃ rest,
      (generateColumns widths capacity tol maxIter dualsAt cols0).2.2 =
        cols0 ++ rest) :=
  ⟨(fun it cols => cgStep_snd widths capacity tol dualsAt it cols),
    (fun cols0 => cgAux_cols_extend widths capacity tol maxIter dualsAt
      maxIter 0 cols0)⟩
